import Mathlib

/-!
Verification of the CIDR-validation logic of test-template.py.

The program's only computational core is validate_cidr_ranges: it walks the
parsed CloudFormation template, collects the CidrBlock of every resource of
type AWS::EC2::Subnet, parses each with the strict IPv4Network constructor of
Python's ipaddress module, and scans all index pairs i < j for overlapping
networks, returning False at the first parse error or the first overlap and
True otherwise.  The definitions below embed that logic: strings are lists of
characters, machine integers are Nat with explicit bounds, and fallible
parsing returns Option.
-/

/-- An IPv4 network as built by the strict IPv4Network constructor: the
integer network address and the prefix length.  The strict constructor
guarantees that the host bits below the prefix are zero, so the broadcast
address (network_address | hostmask) equals addr + (2^(32-prefixLen) - 1);
netEnd below uses that form. -/
structure IPv4Network where
  addr : Nat
  prefixLen : Nat
deriving DecidableEq

/-- First address of the network (network_address as an integer). -/
def netStart (n : IPv4Network) : Nat := n.addr

/-- Last address of the network (broadcast_address as an integer). -/
def netEnd (n : IPv4Network) : Nat := n.addr + (2 ^ (32 - n.prefixLen) - 1)

/-- Membership test of an integer address in a network, mirroring the
Python test addr in network. -/
def addrInNet (x : Nat) (n : IPv4Network) : Bool :=
  decide (netStart n ≤ x ∧ x ≤ netEnd n)

/-- IPv4Network.overlaps from the ipaddress module: self partly contained in
other, tested through the four boundary addresses. -/
def overlaps (a b : IPv4Network) : Bool :=
  addrInNet (netStart a) b || addrInNet (netEnd a) b ||
    addrInNet (netStart b) a || addrInNet (netEnd b) a

/-- Value of a string of decimal digits, as computed by Python int(s, 10). -/
def charsVal (s : List Char) : Nat :=
  s.foldl (fun n c => n * 10 + (c.toNat - 48)) 0

/-- Octet parsing of ipaddress._parse_octet: non-empty, decimal digits only,
at most three characters, no leading zero, value at most 255. -/
def parseOctet (s : List Char) : Option Nat :=
  if s = [] then none
  else if ¬ s.all Char.isDigit then none
  else if 3 < s.length then none
  else if s ≠ ['0'] ∧ s.head? = some '0' then none
  else if 255 < charsVal s then none
  else some (charsVal s)

/-- Splitting of a character list at a separator, as Python str.split does on
a one-character separator (an empty string splits to one empty piece). -/
def splitOnChar (sep : Char) : List Char → List (List Char)
  | [] => [[]]
  | c :: cs =>
    if c = sep then [] :: splitOnChar sep cs
    else
      match splitOnChar sep cs with
      | [] => [[c]]
      | h :: t => (c :: h) :: t

/-- Dotted-quad address parsing of ipaddress._ip_int_from_string: exactly four
octets joined by dots, combined big-endian into one integer below 2^32. -/
def parseIPv4Addr (s : List Char) : Option Nat :=
  match splitOnChar '.' s with
  | [o1, o2, o3, o4] =>
    match parseOctet o1, parseOctet o2, parseOctet o3, parseOctet o4 with
    | some a, some b, some c, some d => some (((a * 256 + b) * 256 + c) * 256 + d)
    | _, _, _, _ => none
  | _ => none

/-- Integer netmask of a given prefix length. -/
def maskOfLen (p : Nat) : Nat := 2 ^ 32 - 2 ^ (32 - p)

/-- Recovery of a prefix length from an integer netmask
(ipaddress._prefix_from_ip_int): succeeds exactly on the 33 valid masks. -/
def prefixFromIpInt (ip : Nat) : Option Nat :=
  (List.range 33).find? fun p => ip == maskOfLen p

/-- Netmask or hostmask notation for a prefix length
(ipaddress._prefix_from_ip_string): the string is parsed as a dotted-quad
address and matched as a netmask, or failing that as a hostmask; the
complement ip XOR (2^32-1) of an address below 2^32 is 2^32 - 1 - ip. -/
def prefixFromIpChars (s : List Char) : Option Nat :=
  match parseIPv4Addr s with
  | none => none
  | some ip =>
    match prefixFromIpInt ip with
    | some p => some p
    | none => prefixFromIpInt (2 ^ 32 - 1 - ip)

/-- Prefix-length parsing of ipaddress._make_netmask for the string after the
slash: a string of decimal digits valued at most 32, and otherwise the
netmask/hostmask fallback. -/
def parsePrefixLen (s : List Char) : Option Nat :=
  if s ≠ [] ∧ s.all Char.isDigit then
    if charsVal s ≤ 32 then some (charsVal s)
    else prefixFromIpChars s
  else prefixFromIpChars s

/-- Strict IPv4Network construction from a character list, as
ipaddress.IPv4Network(cidr) does on a string: split on the slash (no slash
means prefix 32, more than one slash is rejected), parse address and prefix
length, and reject an address with host bits set below the prefix
(the strict check addr & hostmask == 0, i.e. addr % 2^(32-p) == 0). -/
def parseCidrChars (s : List Char) : Option IPv4Network :=
  match splitOnChar '/' s with
  | [a] =>
    match parseIPv4Addr a with
    | some ip => some ⟨ip, 32⟩
    | none => none
  | [a, m] =>
    match parseIPv4Addr a, parsePrefixLen m with
    | some ip, some p =>
      if ip % 2 ^ (32 - p) = 0 then some ⟨ip, p⟩ else none
    | _, _ => none
  | _ => none

/-- Strict IPv4Network construction from a string. -/
def parseIPv4Network (s : String) : Option IPv4Network :=
  parseCidrChars s.data

/-- Inner/outer overlap scan of validate_cidr_ranges: for each entry, compare
it with every later entry and stop at the first overlapping pair, returning
that pair (the source prints both names and returns False there). -/
def findConflict : List (String × IPv4Network) → Option ((String × IPv4Network) × (String × IPv4Network))
  | [] => none
  | x :: rest =>
    match rest.find? (fun y => overlaps x.2 y.2) with
    | some y => some (x, y)
    | none => findConflict rest

/-- Parsing loop of validate_cidr_ranges over the collected (name, cidr)
pairs: the first entry whose CIDR fails to parse makes the whole check fail,
reported with that entry's name and string. -/
def parseAll : List (String × String) → Except (String × String) (List (String × IPv4Network))
  | [] => Except.ok []
  | (name, cidr) :: rest =>
    match parseIPv4Network cidr with
    | none => Except.error (name, cidr)
    | some net =>
      match parseAll rest with
      | Except.error e => Except.error e
      | Except.ok nets => Except.ok ((name, net) :: nets)

/-- Core of validate_cidr_ranges on an already-extracted list of
(label, cidr-string) pairs: parse them all (False on the first bad one), then
succeed exactly when the pair scan finds no overlap. -/
def checkCidrList (l : List (String × String)) : Bool :=
  match parseAll l with
  | Except.error _ => false
  | Except.ok nets => (findConflict nets).isNone

/-- A CloudFormation resource as validate_cidr_ranges reads it: its Type and
the CidrBlock under Properties, either possibly absent. -/
structure Resource where
  type : Option String
  cidrBlock : Option String
deriving DecidableEq

/-- Treatment of one resource by the collection loop of validate_cidr_ranges:
kept when its Type is AWS::EC2::Subnet and its CidrBlock is present and truthy
(a non-empty string), skipped otherwise. -/
def subnetEntry (nr : String × Resource) : Option (String × String) :=
  if nr.2.type = some "AWS::EC2::Subnet" then
    match nr.2.cidrBlock with
    | some cidr => if cidr ≠ "" then some (nr.1, cidr) else none
    | none => none
  else none

/-- Collection loop of validate_cidr_ranges: keep exactly the resources whose
Type is AWS::EC2::Subnet and whose CidrBlock is present and truthy (a
non-empty string), in template order. -/
def extractSubnetCidrs (resources : List (String × Resource)) : List (String × String) :=
  resources.filterMap subnetEntry

/-- validate_cidr_ranges of test-template.py on the Resources section of a
template, modelled as an ordered association list. -/
def validate_cidr_ranges (resources : List (String × Resource)) : Bool :=
  checkCidrList (extractSubnetCidrs resources)

/-- Full list of conflicting pairs in scan order (i < j): the specification's
view of what the pair scan examines; the source stops at the first of these. -/
def allConflicts : List (String × IPv4Network) → List ((String × IPv4Network) × (String × IPv4Network))
  | [] => []
  | x :: rest =>
    (rest.filter (fun y => overlaps x.2 y.2)).map (fun y => (x, y)) ++ allConflicts rest

/-- Conflicts actually reported by validate_cidr_ranges: the one pair named in
the failure message, or nothing on success. -/
def reportedConflicts (l : List (String × IPv4Network)) : List (String × String) :=
  match findConflict l with
  | some xy => [(xy.1.1, xy.2.1)]
  | none => []

/-- Label pairs of all conflicts in scan order. -/
def conflictLabels (l : List (String × IPv4Network)) : List (String × String) :=
  (allConflicts l).map fun xy => (xy.1.1, xy.2.1)

/-- Trace of the inner loop of the pair scan for a fixed outer entry with
network a at index i: the (outer, inner) index pairs whose overlap test is
evaluated, inner indices starting at j, together with whether an overlap was
found (the inner loop stops there). -/
def innerPairs (i j : Nat) (a : IPv4Network) : List (String × IPv4Network) → List (Nat × Nat) × Bool
  | [] => ([], false)
  | y :: ys =>
    if overlaps a y.2 then ([(i, j)], true)
    else
      let r := innerPairs i (j + 1) a ys
      ((i, j) :: r.1, r.2)

/-- Trace of the whole pair scan starting at outer index i: index pairs in the
order their overlap test runs; the scan stops at the first found overlap. -/
def comparedPairsAux (i : Nat) : List (String × IPv4Network) → List (Nat × Nat)
  | [] => []
  | x :: rest =>
    let r := innerPairs i (i + 1) x.2 rest
    if r.2 then r.1 else r.1 ++ comparedPairsAux (i + 1) rest

/-- Index pairs whose overlap test validate_cidr_ranges evaluates, in order. -/
def comparedPairs (l : List (String × IPv4Network)) : List (Nat × Nat) :=
  comparedPairsAux 0 l

/-- All index pairs (p, q) with i ≤ p < q < i + m, in the scan order of the
nested loops. -/
def allPairsFrom (i : Nat) : Nat → List (Nat × Nat)
  | 0 => []
  | m + 1 => (List.range m).map (fun k => (i, i + 1 + k)) ++ allPairsFrom (i + 1) m

/-- Decimal digits of n, most significant first, with explicit fuel so the
recursion is structural; any fuel above n gives the digits of n. -/
def natToCharsAux : Nat → Nat → List Char
  | 0, _ => []
  | fuel + 1, n =>
    if n < 10 then [Nat.digitChar n]
    else natToCharsAux fuel (n / 10) ++ [Nat.digitChar (n % 10)]

/-- Decimal digits of n, most significant first, as Python str(n) renders a
non-negative integer. -/
def natToChars (n : Nat) : List Char :=
  natToCharsAux (n + 1) n

/-- Character list of the CIDR string a.b.c.d/p written with decimal numbers. -/
def cidrChars (a b c d p : Nat) : List Char :=
  natToChars a ++ '.' :: natToChars b ++ '.' :: natToChars c ++ '.' :: natToChars d ++ '/' :: natToChars p

/-- CIDR string a.b.c.d/p written with decimal numbers. -/
def cidrString (a b c d p : Nat) : String :=
  ⟨cidrChars a b c d p⟩

/-- Integer value of the dotted quad a.b.c.d. -/
def ipOfOctets (a b c d : Nat) : Nat :=
  ((a * 256 + b) * 256 + c) * 256 + d

theorem digitChar_toNat {d : Nat} (h : d < 10) : (Nat.digitChar d).toNat = 48 + d := by
  interval_cases d <;> rfl

theorem digitChar_bounds {d : Nat} (h : d < 10) :
    48 ≤ (Nat.digitChar d).toNat ∧ (Nat.digitChar d).toNat ≤ 57 := by
  interval_cases d <;> decide

theorem charsVal_append_singleton (s : List Char) (c : Char) :
    charsVal (s ++ [c]) = charsVal s * 10 + (c.toNat - 48) := by
  simp [charsVal, List.foldl_append]

theorem charsVal_natToCharsAux : ∀ fuel n, n < fuel → charsVal (natToCharsAux fuel n) = n := by
  intro fuel
  induction fuel with
  | zero => intro n h; omega
  | succ fuel ih =>
    intro n h
    by_cases h10 : n < 10
    · have hd := digitChar_toNat h10
      simp [natToCharsAux, h10, charsVal]
      omega
    · have hd := digitChar_toNat (Nat.mod_lt n (show 0 < 10 by omega))
      have hval := ih (n / 10) (by omega)
      simp [natToCharsAux, h10, charsVal_append_singleton, hval]
      omega

theorem charsVal_natToChars (n : Nat) : charsVal (natToChars n) = n :=
  charsVal_natToCharsAux (n + 1) n (Nat.lt_succ_self n)

theorem mem_natToCharsAux_digit :
    ∀ fuel n c, c ∈ natToCharsAux fuel n → 48 ≤ c.toNat ∧ c.toNat ≤ 57 := by
  intro fuel
  induction fuel with
  | zero => intro n c h; simp [natToCharsAux] at h
  | succ fuel ih =>
    intro n c h
    by_cases h10 : n < 10
    · simp [natToCharsAux, h10] at h
      subst h
      exact digitChar_bounds h10
    · simp [natToCharsAux, h10] at h
      rcases h with h | h
      · exact ih _ _ h
      · subst h
        exact digitChar_bounds (Nat.mod_lt n (show 0 < 10 by omega))

theorem not_dot_mem_natToChars (n : Nat) : '.' ∉ natToChars n := by
  intro h
  have h1 := mem_natToCharsAux_digit (n + 1) n '.' h
  have h2 : ('.').toNat = 46 := rfl
  omega

theorem not_slash_mem_natToChars (n : Nat) : '/' ∉ natToChars n := by
  intro h
  have h1 := mem_natToCharsAux_digit (n + 1) n '/' h
  have h2 : ('/').toNat = 47 := rfl
  omega

theorem splitOnChar_of_not_mem {sep : Char} :
    ∀ {xs : List Char}, sep ∉ xs → splitOnChar sep xs = [xs] := by
  intro xs
  induction xs with
  | nil => intro _; rfl
  | cons c cs ih =>
    intro h
    have hc : ¬ c = sep := fun hc => h (by simp [hc])
    have hcs : sep ∉ cs := fun hm => h (by simp [hm])
    simp [splitOnChar, hc, ih hcs]

theorem splitOnChar_append {sep : Char} :
    ∀ {xs : List Char} (ys : List Char), sep ∉ xs →
      splitOnChar sep (xs ++ sep :: ys) = xs :: splitOnChar sep ys := by
  intro xs
  induction xs with
  | nil => intro ys _; simp [splitOnChar]
  | cons c cs ih =>
    intro ys h
    have hc : ¬ c = sep := fun hc => h (by simp [hc])
    have hcs : sep ∉ cs := fun hm => h (by simp [hm])
    simp [splitOnChar, hc, ih ys hcs]

theorem parseOctet_eq_some {s : List Char} {v : Nat} (h : parseOctet s = some v) :
    v = charsVal s ∧ v ≤ 255 := by
  unfold parseOctet at h
  repeat split at h
  all_goals simp_all
  omega

theorem parseIPv4Addr_natToChars (p : Nat) : parseIPv4Addr (natToChars p) = none := by
  unfold parseIPv4Addr
  rw [splitOnChar_of_not_mem (not_dot_mem_natToChars p)]

theorem prefixFromIpChars_natToChars (p : Nat) : prefixFromIpChars (natToChars p) = none := by
  unfold prefixFromIpChars
  rw [parseIPv4Addr_natToChars]

theorem parsePrefixLen_natToChars {p v : Nat} (h : parsePrefixLen (natToChars p) = some v) :
    v = p ∧ p ≤ 32 := by
  unfold parsePrefixLen at h
  rw [charsVal_natToChars, prefixFromIpChars_natToChars] at h
  repeat split at h
  all_goals simp_all

/-- Character list of the dotted quad a.b.c.d written with decimal numbers. -/
def addrChars (a b c d : Nat) : List Char :=
  natToChars a ++ '.' :: (natToChars b ++ '.' :: (natToChars c ++ '.' :: natToChars d))

theorem slash_not_mem_addrChars (a b c d : Nat) : '/' ∉ addrChars a b c d := by
  simp only [addrChars, List.mem_append, List.mem_cons, not_or]
  exact ⟨not_slash_mem_natToChars a, by decide, not_slash_mem_natToChars b, by decide,
    not_slash_mem_natToChars c, by decide, not_slash_mem_natToChars d⟩

theorem splitOnChar_slash_cidrChars (a b c d p : Nat) :
    splitOnChar '/' (cidrChars a b c d p) = [addrChars a b c d, natToChars p] := by
  have hshape : cidrChars a b c d p = addrChars a b c d ++ '/' :: natToChars p := by
    simp [cidrChars, addrChars]
  rw [hshape, splitOnChar_append _ (slash_not_mem_addrChars a b c d),
    splitOnChar_of_not_mem (not_slash_mem_natToChars p)]

theorem splitOnChar_dot_addrChars (a b c d : Nat) :
    splitOnChar '.' (addrChars a b c d) =
      [natToChars a, natToChars b, natToChars c, natToChars d] := by
  unfold addrChars
  rw [splitOnChar_append _ (not_dot_mem_natToChars a),
    splitOnChar_append _ (not_dot_mem_natToChars b),
    splitOnChar_append _ (not_dot_mem_natToChars c),
    splitOnChar_of_not_mem (not_dot_mem_natToChars d)]

theorem parseIPv4Addr_addrChars {a b c d ip : Nat}
    (h : parseIPv4Addr (addrChars a b c d) = some ip) :
    ip = ipOfOctets a b c d ∧ a ≤ 255 ∧ b ≤ 255 ∧ c ≤ 255 ∧ d ≤ 255 := by
  unfold parseIPv4Addr at h
  rw [splitOnChar_dot_addrChars] at h
  cases hA : parseOctet (natToChars a) with
  | none => simp [hA] at h
  | some va =>
  cases hB : parseOctet (natToChars b) with
  | none => simp [hA, hB] at h
  | some vb =>
  cases hC : parseOctet (natToChars c) with
  | none => simp [hA, hB, hC] at h
  | some vc =>
  cases hD : parseOctet (natToChars d) with
  | none => simp [hA, hB, hC, hD] at h
  | some vd =>
    simp only [hA, hB, hC, hD, Option.some.injEq] at h
    obtain ⟨ha1, ha2⟩ := parseOctet_eq_some hA
    obtain ⟨hb1, hb2⟩ := parseOctet_eq_some hB
    obtain ⟨hc1, hc2⟩ := parseOctet_eq_some hC
    obtain ⟨hd1, hd2⟩ := parseOctet_eq_some hD
    rw [charsVal_natToChars] at ha1 hb1 hc1 hd1
    subst ha1 hb1 hc1 hd1
    exact ⟨h.symm, ha2, hb2, hc2, hd2⟩

theorem parseCidrChars_cidrChars {a b c d p : Nat} {n : IPv4Network}
    (h : parseCidrChars (cidrChars a b c d p) = some n) :
    a ≤ 255 ∧ b ≤ 255 ∧ c ≤ 255 ∧ d ≤ 255 ∧ p ≤ 32 ∧
      n = ⟨ipOfOctets a b c d, p⟩ ∧ ipOfOctets a b c d % 2 ^ (32 - p) = 0 := by
  unfold parseCidrChars at h
  rw [splitOnChar_slash_cidrChars] at h
  cases hA : parseIPv4Addr (addrChars a b c d) with
  | none => simp [hA] at h
  | some ip =>
  cases hP : parsePrefixLen (natToChars p) with
  | none => simp [hA, hP] at h
  | some vp =>
    simp only [hA, hP] at h
    obtain ⟨hip, ha, hb, hc, hd⟩ := parseIPv4Addr_addrChars hA
    obtain ⟨hv, hp32⟩ := parsePrefixLen_natToChars hP
    subst hip hv
    split at h
    · cases h
      exact ⟨ha, hb, hc, hd, hp32, rfl, by assumption⟩
    · cases h

theorem netStart_le_netEnd (n : IPv4Network) : netStart n ≤ netEnd n := by
  have h : 0 < 2 ^ (32 - n.prefixLen) := pow_pos (by omega) _
  simp only [netStart, netEnd]
  omega

theorem overlaps_iff_exists (a b : IPv4Network) :
    overlaps a b = true ↔
      ∃ x, netStart a ≤ x ∧ x ≤ netEnd a ∧ netStart b ≤ x ∧ x ≤ netEnd b := by
  have ha := netStart_le_netEnd a
  have hb := netStart_le_netEnd b
  simp only [overlaps, addrInNet, Bool.or_eq_true, decide_eq_true_eq]
  constructor
  · rintro (((⟨h1, h2⟩ | ⟨h1, h2⟩) | ⟨h1, h2⟩) | ⟨h1, h2⟩)
    · exact ⟨netStart a, le_refl _, ha, h1, h2⟩
    · exact ⟨netEnd a, ha, le_refl _, h1, h2⟩
    · exact ⟨netStart b, h1, h2, le_refl _, hb⟩
    · exact ⟨netEnd b, h1, h2, hb, le_refl _⟩
  · rintro ⟨x, h1, h2, h3, h4⟩
    omega

theorem overlaps_comm (a b : IPv4Network) : overlaps a b = overlaps b a := by
  simp only [overlaps]
  cases addrInNet (netStart a) b <;> cases addrInNet (netEnd a) b <;>
    cases addrInNet (netStart b) a <;> cases addrInNet (netEnd b) a <;> rfl

theorem find?_eq_head?_filter {α : Type} (p : α → Bool) :
    ∀ l : List α, l.find? p = (l.filter p).head? := by
  intro l
  induction l with
  | nil => rfl
  | cons x xs ih =>
    by_cases h : p x
    · rw [List.find?_cons_of_pos _ h, List.filter_cons_of_pos h]
      rfl
    · rw [List.find?_cons_of_neg _ h, List.filter_cons_of_neg h, ih]

theorem findConflict_cons (x : String × IPv4Network) (rest : List (String × IPv4Network)) :
    findConflict (x :: rest) =
      match rest.find? (fun y => overlaps x.2 y.2) with
      | some y => some (x, y)
      | none => findConflict rest := rfl

theorem allConflicts_cons (x : String × IPv4Network) (rest : List (String × IPv4Network)) :
    allConflicts (x :: rest) =
      (rest.filter (fun y => overlaps x.2 y.2)).map (fun y => (x, y)) ++ allConflicts rest := rfl

theorem findConflict_eq_none_iff (l : List (String × IPv4Network)) :
    findConflict l = none ↔ l.Pairwise (fun x y => overlaps x.2 y.2 = false) := by
  induction l with
  | nil => simp [findConflict]
  | cons x rest ih =>
    rw [List.pairwise_cons, ← ih, findConflict_cons]
    cases hf : rest.find? (fun y => overlaps x.2 y.2) with
    | some y =>
      have hy : overlaps x.2 y.2 = true := by simpa using List.find?_some hf
      have hmem := List.mem_of_find?_eq_some hf
      constructor
      · intro h
        simp at h
      · rintro ⟨hall, -⟩
        rw [hall y hmem] at hy
        simp at hy
    | none =>
      constructor
      · intro h
        refine ⟨fun y hy => ?_, h⟩
        have hn := List.find?_eq_none.mp hf y hy
        simpa using hn
      · rintro ⟨-, h⟩
        exact h

theorem findConflict_eq_head_allConflicts (l : List (String × IPv4Network)) :
    findConflict l = (allConflicts l).head? := by
  induction l with
  | nil => rfl
  | cons x rest ih =>
    rw [findConflict_cons, find?_eq_head?_filter, allConflicts_cons]
    cases hf : rest.filter (fun y => overlaps x.2 y.2) with
    | nil => simpa using ih
    | cons y ys => simp

theorem parseAll_first_error {pre : List (String × String)} {lbl s : String}
    (post : List (String × String))
    (hpre : ∀ e ∈ pre, parseIPv4Network e.2 ≠ none) (hs : parseIPv4Network s = none) :
    parseAll (pre ++ (lbl, s) :: post) = Except.error (lbl, s) := by
  induction pre with
  | nil => simp [parseAll, hs]
  | cons e rest ih =>
    obtain ⟨name, cidr⟩ := e
    cases hcid : parseIPv4Network cidr with
    | none => exact absurd hcid (hpre (name, cidr) (by simp))
    | some net =>
      have ih' := ih fun e he => hpre e (by simp [he])
      simp [parseAll, hcid, ih']

theorem checkCidrList_first_error {pre : List (String × String)} {lbl s : String}
    (post : List (String × String))
    (hpre : ∀ e ∈ pre, parseIPv4Network e.2 ≠ none) (hs : parseIPv4Network s = none) :
    checkCidrList (pre ++ (lbl, s) :: post) = false := by
  unfold checkCidrList
  rw [parseAll_first_error post hpre hs]

theorem mem_allPairsFrom : ∀ (m i p q : Nat),
    ((p, q) ∈ allPairsFrom i m ↔ i ≤ p ∧ p < q ∧ q < i + m) := by
  intro m
  induction m with
  | zero => intro i p q; simp [allPairsFrom]; omega
  | succ m ih =>
    intro i p q
    simp only [allPairsFrom, List.mem_append, List.mem_map, List.mem_range, ih,
      Prod.mk.injEq]
    constructor
    · rintro (⟨k, hk, hp, hq⟩ | ⟨h1, h2, h3⟩) <;> omega
    · intro ⟨h1, h2, h3⟩
      by_cases hp : p = i
      · exact Or.inl ⟨q - i - 1, by omega, by omega, by omega⟩
      · exact Or.inr ⟨by omega, by omega, by omega⟩

theorem length_allPairsFrom : ∀ (m i : Nat), (allPairsFrom i m).length = m.choose 2 := by
  intro m
  induction m with
  | zero => intro i; rfl
  | succ m ih =>
    intro i
    have hc : (m + 1).choose 2 = m.choose 1 + m.choose 2 := Nat.choose_succ_succ m 1
    have h1 : m.choose 1 = m := Nat.choose_one_right m
    simp only [allPairsFrom, List.length_append, List.length_map, List.length_range, ih]
    omega

theorem nodup_allPairsFrom : ∀ (m i : Nat), (allPairsFrom i m).Nodup := by
  intro m
  induction m with
  | zero => intro i; simp [allPairsFrom]
  | succ m ih =>
    intro i
    refine List.Nodup.append ?_ (ih (i + 1)) ?_
    · refine List.Nodup.map ?_ (List.nodup_range m)
      intro k1 k2 hk
      simpa using hk
    · intro pr h1 h2
      obtain ⟨k, hk, hpr⟩ := List.mem_map.mp h1
      obtain ⟨p, q⟩ := pr
      have h2' := (mem_allPairsFrom m (i + 1) p q).mp h2
      have : p = i := by
        cases hpr
        rfl
      omega

theorem innerPairs_no_overlap (a : IPv4Network) :
    ∀ (ys : List (String × IPv4Network)) (i j : Nat),
      (∀ y ∈ ys, overlaps a y.2 = false) →
      innerPairs i j a ys = ((List.range ys.length).map (fun k => (i, j + k)), false) := by
  intro ys
  induction ys with
  | nil => intro i j _; rfl
  | cons y ys ih =>
    intro i j h
    have hy : overlaps a y.2 = false := h y (by simp)
    have ihy := ih i (j + 1) (fun z hz => h z (by simp [hz]))
    simp only [innerPairs, hy, Bool.false_eq_true, if_false, ihy, List.length_cons]
    rw [List.range_succ_eq_map]
    simp only [List.map_cons, List.map_map, Function.comp_def, Nat.add_zero, Prod.mk.injEq,
      List.cons.injEq, true_and]
    refine ⟨?_, trivial⟩
    apply List.map_congr_left
    intro k _
    have : j + 1 + k = j + k.succ := by omega
    rw [this]

theorem row_shift (i j m : Nat) :
    (List.range (m + 1)).map (fun k => (i, j + k)) =
      (i, j) :: (List.range m).map (fun k => (i, j + 1 + k)) := by
  rw [List.range_succ_eq_map]
  simp only [List.map_cons, List.map_map, Function.comp_def, Nat.add_zero, List.cons.injEq,
    true_and]
  apply List.map_congr_left
  intro k _
  have hk : j + 1 + k = j + k.succ := by omega
  rw [hk]

theorem innerPairs_row_of_flag_false (a : IPv4Network) :
    ∀ (ys : List (String × IPv4Network)) (i j : Nat),
      (innerPairs i j a ys).2 = false →
      innerPairs i j a ys = ((List.range ys.length).map (fun k => (i, j + k)), false) := by
  intro ys
  induction ys with
  | nil => intro i j _; rfl
  | cons y ys ih =>
    intro i j h
    by_cases hov : overlaps a y.2
    · simp [innerPairs, hov] at h
    · have hr : (innerPairs i (j + 1) a ys).2 = false := by
        simpa [innerPairs, hov] using h
      have ihy := ih i (j + 1) hr
      simp only [innerPairs, hov, Bool.false_eq_true, if_false, ihy, List.length_cons]
      rw [row_shift]

theorem innerPairs_prefix_row (a : IPv4Network) :
    ∀ (ys : List (String × IPv4Network)) (i j : Nat),
      ∃ t, (innerPairs i j a ys).1 ++ t = (List.range ys.length).map (fun k => (i, j + k)) := by
  intro ys
  induction ys with
  | nil => intro i j; exact ⟨[], rfl⟩
  | cons y ys ih =>
    intro i j
    simp only [List.length_cons]
    rw [row_shift]
    by_cases hov : overlaps a y.2
    · refine ⟨(List.range ys.length).map (fun k => (i, j + 1 + k)), ?_⟩
      simp only [innerPairs, hov, if_true, List.singleton_append]
    · obtain ⟨t, ht⟩ := ih i (j + 1)
      refine ⟨t, ?_⟩
      simp only [innerPairs, hov, Bool.false_eq_true, if_false, List.cons_append, ht]

theorem comparedPairsAux_cons (i : Nat) (x : String × IPv4Network)
    (rest : List (String × IPv4Network)) :
    comparedPairsAux i (x :: rest) =
      if (innerPairs i (i + 1) x.2 rest).2 then (innerPairs i (i + 1) x.2 rest).1
      else (innerPairs i (i + 1) x.2 rest).1 ++ comparedPairsAux (i + 1) rest := rfl

theorem comparedPairsAux_of_pairwise :
    ∀ (l : List (String × IPv4Network)) (i : Nat),
      l.Pairwise (fun x y => overlaps x.2 y.2 = false) →
      comparedPairsAux i l = allPairsFrom i l.length := by
  intro l
  induction l with
  | nil => intro i _; rfl
  | cons x rest ih =>
    intro i h
    rw [List.pairwise_cons] at h
    obtain ⟨hx, hrest⟩ := h
    have hip := innerPairs_no_overlap x.2 rest i (i + 1) hx
    rw [comparedPairsAux_cons, hip]
    simp only [Bool.false_eq_true, if_false, List.length_cons]
    rw [ih (i + 1) hrest]
    rfl

theorem subnetEntry_eq_none_of_type {nr : String × Resource}
    (h : ¬ nr.2.type = some "AWS::EC2::Subnet") : subnetEntry nr = none := by
  simp [subnetEntry, h]

theorem mem_extractSubnetCidrs {resources : List (String × Resource)} {name cidr : String} :
    (name, cidr) ∈ extractSubnetCidrs resources ↔
      ∃ r : Resource, (name, r) ∈ resources ∧ r.type = some "AWS::EC2::Subnet" ∧
        r.cidrBlock = some cidr ∧ cidr ≠ "" := by
  unfold extractSubnetCidrs
  rw [List.mem_filterMap]
  constructor
  · rintro ⟨⟨n, r⟩, hmem, hf⟩
    unfold subnetEntry at hf
    split at hf
    · rename_i ht
      split at hf
      · rename_i c hcb
        split at hf
        · rename_i hc
          rw [Option.some.injEq, Prod.mk.injEq] at hf
          obtain ⟨h1, h2⟩ := hf
          subst h1
          subst h2
          exact ⟨r, hmem, ht, hcb, hc⟩
        · simp at hf
      · simp at hf
    · simp at hf
  · rintro ⟨r, hmem, ht, hcb, hc⟩
    exact ⟨(name, r), hmem, by simp [subnetEntry, ht, hcb, hc]⟩

theorem extractSubnetCidrs_filter (resources : List (String × Resource)) :
    extractSubnetCidrs (resources.filter fun nr => nr.2.type = some "AWS::EC2::Subnet") =
      extractSubnetCidrs resources := by
  induction resources with
  | nil => rfl
  | cons nr rest ih =>
    by_cases h : nr.2.type = some "AWS::EC2::Subnet"
    · rw [List.filter_cons_of_pos (by simpa using h)]
      simp only [extractSubnetCidrs, List.filterMap_cons] at ih ⊢
      rw [ih]
    · rw [List.filter_cons_of_neg (by simpa using h), ih]
      simp only [extractSubnetCidrs, List.filterMap_cons, subnetEntry_eq_none_of_type h]

/-- C1: on a list of labelled CIDR strings that all parse as valid IPv4
networks, validate_cidr_ranges succeeds exactly when, for every two distinct
entries, the [start, end] integer address ranges of their prefixes have empty
intersection; and two prefixes overlap exactly when the intersection of their
[start, end] ranges is non-empty. -/
theorem C1_check_iff_pairwise_disjoint (l : List (String × String))
    (nets : List (String × IPv4Network)) (hparse : parseAll l = Except.ok nets) :
    (checkCidrList l = true ↔
      ∀ i j : Fin nets.length, i ≠ j →
        ¬ ∃ x : Nat, netStart (nets.get i).2 ≤ x ∧ x ≤ netEnd (nets.get i).2 ∧
          netStart (nets.get j).2 ≤ x ∧ x ≤ netEnd (nets.get j).2) ∧
    (∀ a b : IPv4Network, overlaps a b = true ↔
      ∃ x : Nat, netStart a ≤ x ∧ x ≤ netEnd a ∧ netStart b ≤ x ∧ x ≤ netEnd b) := by
  have hov := overlaps_iff_exists
  refine ⟨?_, hov⟩
  unfold checkCidrList
  rw [hparse]
  have h1 : (findConflict nets).isNone = true ↔ findConflict nets = none := by
    cases findConflict nets <;> simp
  rw [h1, findConflict_eq_none_iff, List.pairwise_iff_get]
  constructor
  · intro hp i j hij hex
    obtain ⟨x, hx1, hx2, hx3, hx4⟩ := hex
    rcases lt_or_gt_of_ne hij with hlt | hgt
    · have hf := hp i j hlt
      have ht := (hov _ _).mpr ⟨x, hx1, hx2, hx3, hx4⟩
      rw [hf] at ht
      cases ht
    · have hf := hp j i hgt
      have ht := (hov _ _).mpr ⟨x, hx3, hx4, hx1, hx2⟩
      rw [hf] at ht
      cases ht
  · intro hd i j hij
    cases hcase : overlaps (nets.get i).2 (nets.get j).2 with
    | false => rfl
    | true => exact absurd ((hov _ _).mp hcase) (hd i j (Fin.ne_of_lt hij))

/-- Two disjoint subnet entries of the demo template, as strings. -/
def sampleCidrList : List (String × String) :=
  [("VPC1PublicSubnet1", "10.0.0.0/26"), ("VPC1PublicSubnet2", "10.0.0.64/26")]

/-- Parsed networks of sampleCidrList. -/
def sampleNets : List (String × IPv4Network) :=
  [("VPC1PublicSubnet1", ⟨167772160, 26⟩), ("VPC1PublicSubnet2", ⟨167772224, 26⟩)]

/-- Witness for C1 at a concrete two-subnet input. -/
theorem C1_check_iff_pairwise_disjoint_witness :
    (checkCidrList sampleCidrList = true ↔
      ∀ i j : Fin sampleNets.length, i ≠ j →
        ¬ ∃ x : Nat, netStart (sampleNets.get i).2 ≤ x ∧ x ≤ netEnd (sampleNets.get i).2 ∧
          netStart (sampleNets.get j).2 ≤ x ∧ x ≤ netEnd (sampleNets.get j).2) ∧
    (∀ a b : IPv4Network, overlaps a b = true ↔
      ∃ x : Nat, netStart a ≤ x ∧ x ≤ netEnd a ∧ netStart b ≤ x ∧ x ≤ netEnd b) :=
  C1_check_iff_pairwise_disjoint sampleCidrList sampleNets (by rfl)

/-- Input with two conflicting pairs, (A,B) and (C,D). -/
def twoConflictNets : List (String × IPv4Network) :=
  [("A", ⟨167772160, 24⟩), ("B", ⟨167772160, 24⟩),
   ("C", ⟨167772416, 24⟩), ("D", ⟨167772416, 24⟩)]

/-- C2 counterexample: on an input whose pairs (A,B) and (C,D) both conflict,
the detector reports only the first conflicting pair, not the set of all
conflicting pairs the claim promises. -/
theorem C2_counterexample :
    ¬ reportedConflicts twoConflictNets = conflictLabels twoConflictNets := by decide

/-- C2 amended: the detector stops at the first conflicting pair of the
i < j scan order: its result is exactly the head of the list of all
conflicting pairs, so it reports at most one conflict, the first one. -/
theorem C2_first_conflict_only (l : List (String × IPv4Network)) :
    findConflict l = (allConflicts l).head? ∧
    reportedConflicts l = (conflictLabels l).take 1 := by
  refine ⟨findConflict_eq_head_allConflicts l, ?_⟩
  unfold reportedConflicts conflictLabels
  rw [findConflict_eq_head_allConflicts l]
  cases allConflicts l with
  | nil => rfl
  | cons x xs => rfl

/-- C3: a CIDR string a.b.c.d/p malformed through an octet above 255, a
prefix length above 32, or host bits set below the prefix length fails to
parse; validate_cidr_ranges reports the first such entry with its label and
string and fails immediately. -/
theorem C3_malformed_rejected (pre post : List (String × String)) (lbl : String)
    (a b c d p : Nat)
    (hpre : ∀ e ∈ pre, parseIPv4Network e.2 ≠ none)
    (hbad : 255 < a ∨ 255 < b ∨ 255 < c ∨ 255 < d ∨ 32 < p ∨
      ipOfOctets a b c d % 2 ^ (32 - p) ≠ 0) :
    parseIPv4Network (cidrString a b c d p) = none ∧
    parseAll (pre ++ (lbl, cidrString a b c d p) :: post) =
      Except.error (lbl, cidrString a b c d p) ∧
    checkCidrList (pre ++ (lbl, cidrString a b c d p) :: post) = false := by
  have hnone : parseIPv4Network (cidrString a b c d p) = none := by
    cases hres : parseCidrChars (cidrChars a b c d p) with
    | none => exact hres
    | some n =>
      exfalso
      obtain ⟨ha, hb, hc, hd, hp, hn, hcanon⟩ := parseCidrChars_cidrChars hres
      rcases hbad with h | h | h | h | h | h <;> omega
  exact ⟨hnone, parseAll_first_error post hpre hnone,
    checkCidrList_first_error post hpre hnone⟩

/-- Witness for C3: the non-canonical 10.0.0.1/26 has host bits set and is
rejected, failing the whole check with its label. -/
theorem C3_malformed_rejected_witness :
    parseIPv4Network (cidrString 10 0 0 1 26) = none ∧
    parseAll ([] ++ ("VPC1BadSubnet", cidrString 10 0 0 1 26) :: []) =
      Except.error ("VPC1BadSubnet", cidrString 10 0 0 1 26) ∧
    checkCidrList ([] ++ ("VPC1BadSubnet", cidrString 10 0 0 1 26) :: []) = false :=
  C3_malformed_rejected [] [] "VPC1BadSubnet" 10 0 0 1 26 (by simp) (by decide)

/-- Input of three entries whose first two conflict, so the scan stops after
one comparison. -/
def earlyStopNets : List (String × IPv4Network) :=
  [("A", ⟨167772160, 24⟩), ("B", ⟨167772160, 24⟩), ("C", ⟨167772416, 24⟩)]

/-- C4 counterexample: with a conflict present the scan returns at the first
overlapping pair, so it does not perform n(n-1)/2 comparisons (here 1 of 3). -/
theorem C4_counterexample :
    ¬ (comparedPairs earlyStopNets).length =
        earlyStopNets.length * (earlyStopNets.length - 1) / 2 := by decide

/-- Prefix property of the scan trace: the index pairs actually compared are
an initial segment of the full i < j enumeration in scan order, whether or
not the scan stops early at a conflict. -/
theorem comparedPairsAux_prefix_allPairs :
    ∀ (l : List (String × IPv4Network)) (i : Nat),
      ∃ t, comparedPairsAux i l ++ t = allPairsFrom i l.length := by
  intro l
  induction l with
  | nil => intro i; exact ⟨[], rfl⟩
  | cons x rest ih =>
    intro i
    rw [comparedPairsAux_cons]
    by_cases hflag : (innerPairs i (i + 1) x.2 rest).2
    · obtain ⟨t0, ht0⟩ := innerPairs_prefix_row x.2 rest i (i + 1)
      refine ⟨t0 ++ allPairsFrom (i + 1) rest.length, ?_⟩
      rw [if_pos hflag]
      simp only [List.length_cons, allPairsFrom]
      rw [← List.append_assoc, ht0]
    · obtain ⟨t, ht⟩ := ih (i + 1)
      have hrow := innerPairs_row_of_flag_false x.2 rest i (i + 1) (by simpa using hflag)
      refine ⟨t, ?_⟩
      rw [if_neg hflag]
      simp only [List.length_cons, allPairsFrom]
      rw [List.append_assoc, ht, hrow]

/-- C4 amended: on every input the scan evaluates the overlap test only on
index pairs i < j < n, never twice for the same pair and never comparing an
entry with itself, so at most n(n-1)/2 comparisons are performed; when no two
entries overlap, it compares every unordered pair exactly once, for exactly
n(n-1)/2 comparisons (with a conflict it can stop earlier, as the
counterexample shows). -/
theorem C4_scan_comparisons (l : List (String × IPv4Network)) :
    (∀ pr ∈ comparedPairs l, pr.1 < pr.2 ∧ pr.2 < l.length) ∧
    (comparedPairs l).Nodup ∧
    (comparedPairs l).length ≤ l.length * (l.length - 1) / 2 ∧
    (findConflict l = none →
      comparedPairs l = allPairsFrom 0 l.length ∧
      (comparedPairs l).length = l.length * (l.length - 1) / 2 ∧
      ∀ i j : Nat, i < j → j < l.length → (i, j) ∈ comparedPairs l) := by
  obtain ⟨t, ht⟩ := comparedPairsAux_prefix_allPairs l 0
  have hsub : List.Sublist (comparedPairs l) (allPairsFrom 0 l.length) := by
    rw [← ht]
    exact List.sublist_append_left _ _
  refine ⟨?_, ?_, ?_, ?_⟩
  · intro pr hpr
    obtain ⟨q1, q2⟩ := pr
    have hm := (mem_allPairsFrom l.length 0 q1 q2).mp (hsub.subset hpr)
    exact ⟨by omega, by omega⟩
  · exact List.Nodup.sublist hsub (nodup_allPairsFrom _ _)
  · have hlen := hsub.length_le
    rw [length_allPairsFrom, Nat.choose_two_right] at hlen
    exact hlen
  · intro h
    have hpw := (findConflict_eq_none_iff l).mp h
    have heq : comparedPairs l = allPairsFrom 0 l.length :=
      comparedPairsAux_of_pairwise l 0 hpw
    refine ⟨heq, ?_, ?_⟩
    · rw [heq, length_allPairsFrom, Nat.choose_two_right]
    · intro i j hij hj
      rw [heq]
      exact (mem_allPairsFrom l.length 0 i j).mpr ⟨by omega, hij, by omega⟩

/-- Three pairwise disjoint subnets. -/
def threeDisjointNets : List (String × IPv4Network) :=
  [("A", ⟨167772160, 26⟩), ("B", ⟨167772224, 26⟩), ("C", ⟨167772288, 26⟩)]

/-- Witness for C4 on three disjoint subnets: the inner implication fires and
all three pairs are compared exactly once. -/
theorem C4_scan_comparisons_witness :
    (∀ pr ∈ comparedPairs threeDisjointNets,
      pr.1 < pr.2 ∧ pr.2 < threeDisjointNets.length) ∧
    (comparedPairs threeDisjointNets).Nodup ∧
    (comparedPairs threeDisjointNets).length ≤
      threeDisjointNets.length * (threeDisjointNets.length - 1) / 2 ∧
    (findConflict threeDisjointNets = none →
      comparedPairs threeDisjointNets = allPairsFrom 0 threeDisjointNets.length ∧
      (comparedPairs threeDisjointNets).length =
        threeDisjointNets.length * (threeDisjointNets.length - 1) / 2 ∧
      ∀ i j : Nat, i < j → j < threeDisjointNets.length →
        (i, j) ∈ comparedPairs threeDisjointNets) :=
  C4_scan_comparisons threeDisjointNets

/-- C5: the overlap relation is symmetric. -/
theorem C5_overlaps_symm (a b : IPv4Network) : overlaps a b = overlaps b a :=
  overlaps_comm a b

/-- C6: two entries carrying identical CIDRs (equal address and equal prefix
length) always overlap, and the pair scan reports such a pair as a
conflict. -/
theorem C6_identical_overlap (m n : IPv4Network) (s t : String)
    (rest : List (String × IPv4Network))
    (h1 : m.addr = n.addr) (h2 : m.prefixLen = n.prefixLen) :
    overlaps m n = true ∧
    findConflict ((s, m) :: (t, n) :: rest) = some ((s, m), (t, n)) := by
  have hse : n.addr ≤ n.addr + (2 ^ (32 - n.prefixLen) - 1) := Nat.le_add_right _ _
  have hov : overlaps m n = true := by
    simp only [overlaps, addrInNet, netStart, netEnd, h1, h2, Bool.or_eq_true,
      decide_eq_true_eq]
    left
    left
    left
    exact ⟨le_refl _, hse⟩
  refine ⟨hov, ?_⟩
  rw [findConflict_cons]
  have hfind : ((t, n) :: rest).find? (fun y => overlaps m y.2) = some (t, n) :=
    List.find?_cons_of_pos _ (by simpa using hov)
  rw [hfind]

/-- Witness for C6 at two copies of 10.0.0.0/24. -/
theorem C6_identical_overlap_witness :
    overlaps ⟨167772160, 24⟩ ⟨167772160, 24⟩ = true ∧
    findConflict
        [("VPC1PrivateSubnet1", ⟨167772160, 24⟩), ("VPC1PrivateSubnet2", ⟨167772160, 24⟩)] =
      some (("VPC1PrivateSubnet1", ⟨167772160, 24⟩),
        ("VPC1PrivateSubnet2", ⟨167772160, 24⟩)) :=
  C6_identical_overlap ⟨167772160, 24⟩ ⟨167772160, 24⟩ "VPC1PrivateSubnet1"
    "VPC1PrivateSubnet2" [] rfl rfl

/-- C7: the adjacent prefixes 10.0.0.0/26 and 10.0.0.64/26 parse to the
networks [167772160, 167772223] and [167772224, 167772287], are judged
disjoint in both directions, and the check passes on them. -/
theorem C7_adjacent_disjoint :
    parseIPv4Network "10.0.0.0/26" = some ⟨167772160, 26⟩ ∧
    parseIPv4Network "10.0.0.64/26" = some ⟨167772224, 26⟩ ∧
    netEnd ⟨167772160, 26⟩ + 1 = netStart ⟨167772224, 26⟩ ∧
    overlaps ⟨167772160, 26⟩ ⟨167772224, 26⟩ = false ∧
    overlaps ⟨167772224, 26⟩ ⟨167772160, 26⟩ = false ∧
    checkCidrList [("S1", "10.0.0.0/26"), ("S2", "10.0.0.64/26")] = true := by decide

/-- C8: the prefix 10.0.0.0/26 is strictly contained in 10.0.0.0/24; the two
are reported as overlapping and the check fails on them. -/
theorem C8_contained_overlap :
    parseIPv4Network "10.0.0.0/24" = some ⟨167772160, 24⟩ ∧
    parseIPv4Network "10.0.0.0/26" = some ⟨167772160, 26⟩ ∧
    netStart ⟨167772160, 24⟩ ≤ netStart ⟨167772160, 26⟩ ∧
    netEnd ⟨167772160, 26⟩ < netEnd ⟨167772160, 24⟩ ∧
    overlaps ⟨167772160, 24⟩ ⟨167772160, 26⟩ = true ∧
    overlaps ⟨167772160, 26⟩ ⟨167772160, 24⟩ = true ∧
    checkCidrList [("S1", "10.0.0.0/24"), ("S2", "10.0.0.0/26")] = false := by decide

/-- C9: the empty input list parses to no networks, yields the empty conflict
list, performs no comparison and the check succeeds without error. -/
theorem C9_empty_input :
    parseAll [] = Except.ok [] ∧
    allConflicts [] = [] ∧
    findConflict [] = none ∧
    comparedPairs [] = [] ∧
    checkCidrList [] = true ∧
    validate_cidr_ranges [] = true :=
  ⟨rfl, rfl, rfl, rfl, rfl, rfl⟩

/-- Demo template fragment: a VPC whose /22 block contains both subnets, two
subnets, and a resource with no CidrBlock. -/
def demoResources : List (String × Resource) :=
  [("VPC1", ⟨some "AWS::EC2::VPC", some "10.0.0.0/22"⟩),
   ("VPC1PublicSubnet1", ⟨some "AWS::EC2::Subnet", some "10.0.0.0/26"⟩),
   ("VPC1PublicSubnet2", ⟨some "AWS::EC2::Subnet", some "10.0.0.64/26"⟩),
   ("VPC1InternetGateway", ⟨some "AWS::EC2::InternetGateway", none⟩)]

/-- C10: validate_cidr_ranges considers exactly the resources of Type
AWS::EC2::Subnet with a present, non-empty CidrBlock: membership in the
collected list is characterized by that condition, the verdict is unchanged
when every non-subnet resource is dropped, and on a demo template whose VPC
/22 block contains both subnets the VPC is excluded, so no overlap is
reported. -/
theorem C10_only_subnets_checked :
    (∀ (resources : List (String × Resource)) (name cidr : String),
      (name, cidr) ∈ extractSubnetCidrs resources ↔
        ∃ r : Resource, (name, r) ∈ resources ∧ r.type = some "AWS::EC2::Subnet" ∧
          r.cidrBlock = some cidr ∧ cidr ≠ "") ∧
    (∀ resources : List (String × Resource),
      validate_cidr_ranges
          (resources.filter fun nr => nr.2.type = some "AWS::EC2::Subnet") =
        validate_cidr_ranges resources) ∧
    extractSubnetCidrs demoResources =
      [("VPC1PublicSubnet1", "10.0.0.0/26"), ("VPC1PublicSubnet2", "10.0.0.64/26")] ∧
    parseIPv4Network "10.0.0.0/22" = some ⟨167772160, 22⟩ ∧
    overlaps ⟨167772160, 22⟩ ⟨167772160, 26⟩ = true ∧
    overlaps ⟨167772160, 22⟩ ⟨167772224, 26⟩ = true ∧
    validate_cidr_ranges demoResources = true := by
  refine ⟨fun resources name cidr => mem_extractSubnetCidrs, ?_,
    by decide, by decide, by decide, by decide, by decide⟩
  intro resources
  unfold validate_cidr_ranges
  rw [extractSubnetCidrs_filter]
